import Mathlib

/-!
Verification of the smart web scraper (`smart_web_scraper.py`).

Strings are modelled as `List Char` (`Str`), matching Python's view of `str`
as a sequence of characters.  The URL functions the scraper calls
(`urllib.parse.urljoin`, `urlparse`, `urlsplit`, `urlunparse`, `urlunsplit`,
`SplitResult.hostname`) are embedded from CPython 3.11's `urllib/parse.py`,
since the scraper's behaviour on URLs is exactly theirs.  Exceptional paths
of `urlsplit` that only exotic inputs reach (the `ValueError` for unbalanced
IPv6 brackets and the NFKC netloc check, which raise instead of returning)
are not modelled; all other inputs follow the real control flow.

The crawler itself (`SmartWebScraper.get_page_content`, `scrape`, …) is
embedded further below as a state machine over an explicit environment for
the network, the headless browser and the output sink.
-/

/-- Python `str` as a list of characters. -/
abbrev Str := List Char

/-- Python's `str.lower()` restricted to ASCII; every place the scraper's
pipeline lowercases (URL schemes, hostnames) has already been checked to be
ASCII by `scheme_chars` or is treated as such. -/
def lowerS (s : Str) : Str := s.map Char.toLower

/-- `_UNSAFE_URL_BYTES_TO_REMOVE`: `urlsplit` deletes every tab, CR and LF
from its input (`url.replace(b, "")` for each of them). -/
def removeUnsafeBytes (s : Str) : Str :=
  s.filter (fun c => !(c == Char.ofNat 9 || c == Char.ofNat 13 || c == Char.ofNat 10))

/-- A character of `_WHATWG_C0_CONTROL_OR_SPACE` (code points 0x00–0x20). -/
def isC0OrSpace (c : Char) : Bool := c.toNat ≤ 32

/-- Python `s.strip(_WHATWG_C0_CONTROL_OR_SPACE)`. -/
def stripC0 (s : Str) : Str :=
  ((s.dropWhile isC0OrSpace).reverse.dropWhile isC0OrSpace).reverse

/-- Split at the first occurrence of `c`: Python `s.split(c, 1)` when `c ∈ s`
(`none` when `c ∉ s`).  Neither part contains the delimiter occurrence. -/
def splitFirst (c : Char) : Str → Option (Str × Str)
  | [] => none
  | x :: xs =>
    if x == c then some ([], xs)
    else
      match splitFirst c xs with
      | none => none
      | some (a, b) => some (x :: a, b)

/-- Python `s.split(c)`: always at least one piece. -/
def splitAll (c : Char) : Str → List Str
  | [] => [[]]
  | x :: xs =>
    let r := splitAll c xs
    if x == c then [] :: r
    else
      match r with
      | [] => [[x]]
      | y :: ys => (x :: y) :: ys

/-- Split at the last occurrence of `c` (Python `rfind`-based splitting). -/
def splitLast (c : Char) (l : Str) : Option (Str × Str) :=
  match splitFirst c l.reverse with
  | none => none
  | some (a, b) => some (b.reverse, a.reverse)

/-- `hasPrefixL pre s`: Python `s.startswith(pre)`. -/
def hasPrefixL : Str → Str → Bool
  | [], _ => true
  | _ :: _, [] => false
  | p :: ps, s :: ss => p == s && hasPrefixL ps ss

/-- `_splitnetloc(url, 2)` after the leading `"//"` has been dropped: the part
before the first of `/ ? #`, and the rest beginning at that delimiter. -/
def spanUntil (stop : List Char) : Str → Str × Str
  | [] => ([], [])
  | x :: xs =>
    if stop.contains x then ([], x :: xs)
    else
      let (a, b) := spanUntil stop xs
      (x :: a, b)

/-- Python `'/'.join(l)` and friends. -/
def joinSep (sep : Str) : List Str → Str
  | [] => []
  | [x] => x
  | x :: xs => x ++ sep ++ joinSep sep xs

/-- A character of `scheme_chars` (letters, digits, `+`, `-`, `.`). -/
def schemeChar (c : Char) : Bool :=
  c.isAlpha || c.isDigit || c == '+' || c == '-' || c == '.'

/-- `uses_relative` from `urllib.parse`. -/
def uses_relative : List Str :=
  [[], ("ftp").toList, ("http").toList, ("gopher").toList, ("nntp").toList,
   ("imap").toList, ("wais").toList, ("file").toList, ("https").toList,
   ("shttp").toList, ("mms").toList, ("prospero").toList, ("rtsp").toList,
   ("rtspu").toList, ("sftp").toList, ("svn").toList, ("svn+ssh").toList,
   ("ws").toList, ("wss").toList]

/-- `uses_netloc` from `urllib.parse`. -/
def uses_netloc : List Str :=
  [[], ("ftp").toList, ("http").toList, ("gopher").toList, ("nntp").toList,
   ("telnet").toList, ("imap").toList, ("wais").toList, ("file").toList,
   ("mms").toList, ("https").toList, ("shttp").toList, ("snews").toList,
   ("prospero").toList, ("rtsp").toList, ("rtspu").toList, ("rsync").toList,
   ("svn").toList, ("svn+ssh").toList, ("sftp").toList, ("nfs").toList,
   ("git").toList, ("git+ssh").toList, ("ws").toList, ("wss").toList]

/-- `uses_params` from `urllib.parse`. -/
def uses_params : List Str :=
  [[], ("ftp").toList, ("hdl").toList, ("prospero").toList, ("http").toList,
   ("imap").toList, ("https").toList, ("shttp").toList, ("rtsp").toList,
   ("rtspu").toList, ("sip").toList, ("sips").toList, ("mms").toList,
   ("sftp").toList, ("tel").toList]

/-- The scheme-recognition step of `urlsplit`: `i = url.find(':')`,
`if i > 0 and url[0].isascii() and url[0].isalpha()` and every character of
`url[:i]` is in `scheme_chars`, then the scheme is `url[:i].lower()` and the
rest is `url[i+1:]`; otherwise the default scheme applies. -/
def splitScheme (url dscheme : Str) : Str × Str :=
  match splitFirst ':' url with
  | none => (dscheme, url)
  | some (pre, post) =>
    match pre with
    | [] => (dscheme, url)
    | c :: cs =>
      if c.isAlpha && (c :: cs).all schemeChar then (lowerS (c :: cs), post)
      else (dscheme, url)

/-- The five components returned by `urlsplit`. -/
structure SplitRes where
  scheme : Str
  netloc : Str
  path : Str
  query : Str
  fragment : Str
deriving Repr, DecidableEq

/-- CPython 3.11 `urlsplit(url, scheme, allow_fragments=True)` (the scraper
never passes `allow_fragments=False`). -/
def urlsplit (url0 dscheme0 : Str) : SplitRes :=
  let url1 := removeUnsafeBytes (url0.dropWhile isC0OrSpace)
  let ds := removeUnsafeBytes (stripC0 dscheme0)
  let (scheme, rest1) := splitScheme url1 ds
  let (netloc, rest2) :=
    if hasPrefixL ['/', '/'] rest1 then spanUntil ['/', '?', '#'] (rest1.drop 2)
    else ([], rest1)
  let (rest3, fragment) :=
    match splitFirst '#' rest2 with
    | some (a, b) => (a, b)
    | none => (rest2, [])
  let (path, query) :=
    match splitFirst '?' rest3 with
    | some (a, b) => (a, b)
    | none => (rest3, [])
  ⟨scheme, netloc, path, query, fragment⟩

/-- `_splitparams(url)`: split `;params` off the last path segment. -/
def splitparams (p : Str) : Str × Str :=
  if p.contains '/' then
    match splitLast '/' p with
    | some (pre, post) =>
      (match splitFirst ';' post with
       | none => (p, [])
       | some (a, b) => (pre ++ '/' :: a, b))
    | none => (p, [])
  else
    match splitFirst ';' p with
    | none => (p, [])
    | some (a, b) => (a, b)

/-- The six components returned by `urlparse`. -/
structure ParseRes where
  scheme : Str
  netloc : Str
  path : Str
  params : Str
  query : Str
  fragment : Str
deriving Repr, DecidableEq

/-- CPython 3.11 `urlparse(url, scheme, allow_fragments=True)`. -/
def urlparse (url dscheme : Str) : ParseRes :=
  let s := urlsplit url dscheme
  if uses_params.contains s.scheme && s.path.contains ';' then
    let (p, par) := splitparams s.path
    ⟨s.scheme, s.netloc, p, par, s.query, s.fragment⟩
  else ⟨s.scheme, s.netloc, s.path, [], s.query, s.fragment⟩

/-- CPython 3.11 `urlunsplit((scheme, netloc, url, query, fragment))`. -/
def urlunsplit (scheme netloc path query fragment : Str) : Str :=
  let url := path
  let url :=
    if !netloc.isEmpty ||
        (!scheme.isEmpty && uses_netloc.contains scheme && !hasPrefixL ['/', '/'] url) then
      let url2 := if !url.isEmpty && !hasPrefixL ['/'] url then '/' :: url else url
      '/' :: '/' :: (netloc ++ url2)
    else url
  let url := if !scheme.isEmpty then scheme ++ ':' :: url else url
  let url := if !query.isEmpty then url ++ '?' :: query else url
  if !fragment.isEmpty then url ++ '#' :: fragment else url

/-- CPython 3.11 `urlunparse`. -/
def urlunparse (r : ParseRes) : Str :=
  let p := if !r.params.isEmpty then r.path ++ ';' :: r.params else r.path
  urlunsplit r.scheme r.netloc p r.query r.fragment

/-- The filtering `segments[1:-1] = filter(None, segments[1:-1])` applied to
everything after the head: keep the last element, drop empty ones before it. -/
def keepLastFilter : List Str → List Str
  | [] => []
  | [y] => [y]
  | y :: ys => if y.isEmpty then keepLastFilter ys else y :: keepLastFilter ys

/-- `segments[1:-1] = filter(None, segments[1:-1])`: head and last element are
kept, empty segments strictly between them are dropped. -/
def filterMiddle : List Str → List Str
  | [] => []
  | [x] => [x]
  | x :: rest => x :: keepLastFilter rest

/-- The dot-segment resolution loop of `urljoin`: `..` pops the last resolved
segment (ignored on an empty stack), `.` is skipped, anything else appended. -/
def resolveSegs (segs : List Str) : List Str :=
  segs.foldl
    (fun acc seg =>
      if seg == ['.', '.'] then acc.dropLast
      else if seg == ['.'] then acc
      else acc ++ [seg]) []

/-- CPython 3.11 `urljoin(base, url)`. -/
def urljoin (base url : Str) : Str :=
  if base.isEmpty then url
  else if url.isEmpty then base
  else
    let b := urlparse base []
    let u := urlparse url b.scheme
    if u.scheme != b.scheme || !uses_relative.contains u.scheme then url
    else if uses_netloc.contains u.scheme && !u.netloc.isEmpty then urlunparse u
    else
      let nl := if uses_netloc.contains u.scheme then b.netloc else u.netloc
      if u.path.isEmpty && u.params.isEmpty then
        urlunparse ⟨u.scheme, nl, b.path, b.params,
          (if u.query.isEmpty then b.query else u.query), u.fragment⟩
      else
        let baseParts0 := splitAll '/' b.path
        let baseParts :=
          if !(baseParts0.getLast? == some []) then baseParts0.dropLast else baseParts0
        let segments :=
          if hasPrefixL ['/'] u.path then splitAll '/' u.path
          else filterMiddle (baseParts ++ splitAll '/' u.path)
        let resolved0 := resolveSegs segments
        let resolved :=
          if segments.getLast? == some ['.'] || segments.getLast? == some ['.', '.'] then
            resolved0 ++ [[]]
          else resolved0
        let joined := joinSep ['/'] resolved
        let fpath := if joined.isEmpty then ['/'] else joined
        urlunparse ⟨u.scheme, nl, fpath, u.params, u.query, u.fragment⟩

/-- `SmartWebScraper.normalize_url`: return the URL unchanged when it starts
with `"http"`, otherwise join it onto the **configured base URL**
(`urllib.parse.urljoin(self.base_url, url)`). -/
def normalize_url (base url : Str) : Str :=
  if hasPrefixL (("http").toList) url then url else urljoin base url

/-- `urllib.parse.urlparse(u).netloc`. -/
def urlnetloc (u : Str) : Str := (urlparse u []).netloc

/-- `SmartWebScraper.is_same_domain`: netloc of the base URL equals netloc of
the given URL. -/
def is_same_domain (base url : Str) : Bool := urlnetloc base == urlnetloc url

/-- Everything after the last occurrence of `c` (Python `rpartition(c)[2]`,
the whole string when `c` is absent). -/
def afterLast (c : Char) (l : Str) : Str :=
  match splitLast c l with
  | none => l
  | some (_, post) => post

/-- Everything after the first occurrence of `c` (Python `partition(c)[2]`,
the whole string when `c` is absent). -/
def afterFirst (c : Char) (l : Str) : Str :=
  match splitFirst c l with
  | none => l
  | some (_, b) => b

/-- `SplitResult.hostname` as computed by `_hostinfo`: drop userinfo up to the
last `@`, then either the bracketed IPv6 literal or the part before `:`,
lowercased. -/
def hostOfNetloc (nl : Str) : Str :=
  let hi := afterLast '@' nl
  if hi.contains '[' then lowerS ((afterFirst '[' hi).takeWhile (fun c => c != ']'))
  else lowerS (hi.takeWhile (fun c => c != ':'))

/-- The host of a URL: `urlparse(u).hostname` (as a string; Python's `None`
for a missing host corresponds to the empty string). -/
def urlhost (u : Str) : Str := hostOfNetloc (urlnetloc u)

/-- The skip test of `extract_links`: fragment-only, `javascript:`, `mailto:`
and `tel:` references are dropped before normalization. -/
def excludedHref (h : Str) : Bool :=
  hasPrefixL ['#'] h || hasPrefixL (("javascript:").toList) h ||
  hasPrefixL (("mailto:").toList) h || hasPrefixL (("tel:").toList) h

/-- `SmartWebScraper.extract_links`, over the list of `href` attributes of the
page's `<a href=…>` tags in document order (the HTML parser that produces that
list is an assumed collaborator).  Note the function receives no page URL:
normalization is always against the scraper's configured base URL.  A null or
empty markup yields `[]` in the source, matching the empty anchor list. -/
def extract_links (base : Str) : List Str → List Str
  | [] => []
  | href :: rest =>
    if excludedHref href then extract_links base rest
    else
      let full := normalize_url base href
      if is_same_domain base full then full :: extract_links base rest
      else extract_links base rest

/-!  ## Content extraction: `extract_text`

The HTML parser is an assumed collaborator; a parsed document is a forest of
nodes, each either a text node or an element with a tag and children.
`extract_text` removes the subtrees rooted at non-content tags
(`script, style, noscript, iframe, svg, img` — `decompose()` in the source),
joins the remaining text nodes with single spaces (`get_text(separator=' ')`),
collapses every whitespace run to one space (`re.sub(r'\s+', ' ', text)`) and
strips leading and trailing whitespace (`.strip()`).  -/

/-- A node of the parsed markup. -/
inductive HNode where
  | textN (s : Str)
  | elemN (tag : Str) (children : List HNode)

/-- The tags whose subtrees `extract_text` decomposes before reading text. -/
def removedTags : List Str :=
  [("script").toList, ("style").toList, ("noscript").toList,
   ("iframe").toList, ("svg").toList, ("img").toList]

mutual

/-- The text nodes below `n` that survive `decompose()` of `removedTags`,
in document order. -/
def HNode.keptTexts : HNode → List Str
  | .textN s => [s]
  | .elemN tag cs => if removedTags.contains tag then [] else keptTextsList cs

/-- `HNode.keptTexts` over a forest. -/
def keptTextsList : List HNode → List Str
  | [] => []
  | n :: ns => n.keptTexts ++ keptTextsList ns

end

/-- A character matched by `\s` in a Python 3 `str` regex; the same set
underlies `str.strip()` (`str.isspace`). -/
def isWs (c : Char) : Bool :=
  (9 ≤ c.toNat && c.toNat ≤ 13) || c == ' ' ||
  (28 ≤ c.toNat && c.toNat ≤ 31) || c.toNat == 133 || c.toNat == 160 ||
  c.toNat == 5760 || (8192 ≤ c.toNat && c.toNat ≤ 8202) ||
  c.toNat == 8232 || c.toNat == 8233 || c.toNat == 8239 ||
  c.toNat == 8287 || c.toNat == 12288

/-- `re.sub(r'\s+', ' ', ·)`: the flag records whether the scanner is inside a
whitespace run whose single replacement space was already emitted. -/
def collapseAux : Bool → Str → Str
  | _, [] => []
  | inRun, c :: rest =>
    if isWs c then
      if inRun then collapseAux true rest
      else ' ' :: collapseAux true rest
    else c :: collapseAux false rest

/-- `re.sub(r'\s+', ' ', s)`. -/
def collapseWs (s : Str) : Str := collapseAux false s

/-- Python `str.strip()`. -/
def stripWs (s : Str) : Str :=
  ((s.dropWhile isWs).reverse.dropWhile isWs).reverse

/-- `SmartWebScraper.extract_text`.  The argument is the parsed markup;
`none` stands for the falsy inputs (`None` and the empty string), for which
the source returns `""` without parsing. -/
def extract_text (html : Option (List HNode)) : Str :=
  match html with
  | none => []
  | some ns => stripWs (collapseWs (joinSep [' '] (keptTextsList ns)))

/-- No two consecutive characters are both whitespace. -/
def noDoubleWs : Str → Bool
  | a :: b :: rest => (!(isWs a) || !(isWs b)) && noDoubleWs (b :: rest)
  | _ => true

/-- Neither the first nor the last character is whitespace (vacuous on `[]`). -/
def noEdgeWs (l : Str) : Bool :=
  (match l.head? with | some a => !isWs a | none => true) &&
  (match l.getLast? with | some b => !isWs b | none => true)

/-!  ## The crawl engine

`get_page_content` and `scrape` are embedded as functions of an explicit
environment (`FetchEnv`) standing for the network, the Selenium driver and
the CSV sink, and of the mutable crawler state.  A fetched page is its parsed
essence: the verdict of `detect_javascript_content` (the regex classifier is
an internal heuristic none of the claims inspect), the `href` attributes of
its anchors, and its node forest for text extraction.  Runs produce an event
trace recording Selenium initialization attempts (`webdriver.Chrome(...)`
calls and their outcome), fetches, CSV rows, enqueues, robots skips and the
final `driver.quit()`.  -/

/-- A fetched page, as the scraper consumes it. -/
structure Page where
  needsJs : Bool
  anchors : List Str
  nodes : List HNode

/-- Outcome of `requests.get(url, ...)`: a transport error, or a response
with a status code and a body. -/
inductive HttpResult where
  | err
  | ok (status : Nat) (page : Page)

/-- The run's external collaborators.  `chromeOk k` is the outcome of the
`k`-th `webdriver.Chrome(options=...)` call of the run; `render u` is
`driver.get(u); driver.page_source` (`none` when navigation raises);
`sinkOk u` is whether appending `u`'s CSV row succeeds (a raising sink models
the spec's "propagated error" exit path). -/
structure FetchEnv where
  http : Str → HttpResult
  chromeOk : Nat → Bool
  render : Str → Option Page
  sinkOk : Str → Bool

/-- The Selenium-related mutable state (`self.driver`, `self.tried_selenium`)
plus the count of Chrome initialization attempts made so far, which indexes
`chromeOk`. -/
structure World where
  driver : Bool
  tried_selenium : Bool
  nInit : Nat
deriving Repr, DecidableEq

/-- Events observable in a run. -/
inductive Ev where
  | chromeInit (ok : Bool)
  | fetched (u : Str)
  | row (u : Str) (text : Str)
  | enqueued (u : Str)
  | skippedRobots (u : Str)
  | quit
deriving Repr, DecidableEq

/-- `SmartWebScraper.initialize_selenium`: `True` at once when a driver
exists; otherwise one `webdriver.Chrome` attempt, setting `self.driver` and
returning `True` on success, logging and returning `False` on failure. -/
def init_selenium (env : FetchEnv) (w : World) : Bool × World × List Ev :=
  if w.driver then (true, w, [])
  else if env.chromeOk w.nInit then
    (true, { w with driver := true, nInit := w.nInit + 1 }, [Ev.chromeInit true])
  else
    (false, { w with nInit := w.nInit + 1 }, [Ev.chromeInit false])

/-- `SmartWebScraper.get_page_content`: static fetch; on 200 run the
classifier and, when it fires and no prior Selenium success exists this run,
lazily initialize Selenium and render (falling back to the static markup when
initialization or navigation fails); on non-200 return `None`; on transport
error fall back to Selenium under the same one-shot guard, else `None`.
`self.tried_selenium` is set only after `initialize_selenium()` returns
`True`, exactly as in the source. -/
def get_page_content (env : FetchEnv) (w : World) (url : Str) :
    Option Page × World × List Ev :=
  match env.http url with
  | .ok status page =>
    if status == 200 then
      if page.needsJs then
        if !w.tried_selenium then
          let (ok, w1, evs) := init_selenium env w
          if ok then
            let w2 := { w1 with tried_selenium := true }
            match env.render url with
            | some rendered => (some rendered, w2, evs)
            | none => (some page, w2, evs)
          else (some page, w1, evs)
        else (some page, w, [])
      else (some page, w, [])
    else (none, w, [])
  | .err =>
    if !w.tried_selenium then
      let (ok, w1, evs) := init_selenium env w
      if ok then
        let w2 := { w1 with tried_selenium := true }
        match env.render url with
        | some rendered => (some rendered, w2, evs)
        | none => (none, w2, evs)
      else (none, w1, evs)
    else (none, w, [])

/-- The whole crawler state of one run, as set up by `__init__`:
`self.base_url`, `self.respect_robots`, `self.robot_parser_completed`, the
parsed robots policy's decision function (`self.robot_parser.can_fetch`
applied to the configured user agent), `self.visited_urls`, `self.queue`,
the Selenium state and the loop's `page_count`. -/
structure CrawlState where
  base : Str
  respect_robots : Bool
  robot_parser_completed : Bool
  robotAllows : Str → Bool
  visited : List Str
  queue : List Str
  w : World
  page_count : Nat

/-- `SmartWebScraper.can_fetch`: `True` when robots compliance is disabled,
otherwise the parsed policy's answer. -/
def can_fetch (s : CrawlState) (url : Str) : Bool :=
  if !s.respect_robots then true else s.robotAllows url

/-- The robots part of the loop's skip test:
`self.robot_parser_completed and not self.can_fetch(url)`. -/
def robotsBlocks (s : CrawlState) (url : Str) : Bool :=
  s.robot_parser_completed && !can_fetch s url

/-- The link-enqueueing loop of `scrape`: append each extracted link that is
neither visited nor already pending, checking against the queue as it grows. -/
def enqueue_links (visited : List Str) (queue : List Str) :
    List Str → List Str × List Ev
  | [] => (queue, [])
  | l :: ls =>
    if visited.contains l || queue.contains l then enqueue_links visited queue ls
    else
      let (q, evs) := enqueue_links visited (queue ++ [l]) ls
      (q, Ev.enqueued l :: evs)

/-- One iteration body of the `while` loop of `scrape`, after `url` has been
popped from the queue: the visited/robots skip test, marking visited,
fetching, and on content the CSV row, link extraction and enqueueing, ending
with `page_count += 1`.  The returned flag is `true` when the sink raised,
aborting the loop (the increment is then never reached). -/
def handle_url (env : FetchEnv) (s : CrawlState) (url : Str) :
    CrawlState × List Ev × Bool :=
  if s.visited.contains url then (s, [], false)
  else if robotsBlocks s url then (s, [Ev.skippedRobots url], false)
  else
    let s1 := { s with visited := url :: s.visited }
    let (content, w1, evs) := get_page_content env s1.w url
    let s2 := { s1 with w := w1 }
    match content with
    | none => ({ s2 with page_count := s2.page_count + 1 }, Ev.fetched url :: evs, false)
    | some page =>
      if env.sinkOk url then
        let text := extract_text (some page.nodes)
        let (q, enqEvs) := enqueue_links s2.visited s2.queue (extract_links s2.base page.anchors)
        ({ s2 with queue := q, page_count := s2.page_count + 1 },
         Ev.fetched url :: evs ++ Ev.row url text :: enqEvs, false)
      else (s2, Ev.fetched url :: evs, true)

/-- How a run of the crawl loop ended. -/
inductive ExitKind where
  | finished
  | errored
  | fuelOut
deriving Repr, DecidableEq

/-- Whether `page_count < max_pages` fails (`max_pages is None` never ends
the loop). -/
def budgetReached (maxPages : Option Nat) (count : Nat) : Bool :=
  match maxPages with
  | none => false
  | some m => !(count < m)

/-- The `while self.queue and (max_pages is None or page_count < max_pages)`
loop of `scrape`, with explicit fuel standing for an arbitrary finite number
of iterations (`.fuelOut` marks runs the fuel cut short). -/
def crawlLoop (env : FetchEnv) (maxPages : Option Nat) :
    Nat → CrawlState → CrawlState × List Ev × ExitKind
  | 0, s => (s, [], ExitKind.fuelOut)
  | Nat.succ fuel, s =>
    match s.queue with
    | [] => (s, [], ExitKind.finished)
    | url :: rest =>
      if budgetReached maxPages s.page_count then (s, [], ExitKind.finished)
      else
        let (s1, evs, raised) := handle_url env { s with queue := rest } url
        if raised then (s1, evs, ExitKind.errored)
        else
          let (s2, t, ex) := crawlLoop env maxPages fuel s1
          (s2, evs ++ t, ex)

/-- `SmartWebScraper.scrape`: the loop wrapped in `try/finally`; on every
exit the driver is quit exactly when one was created. -/
def scrape (env : FetchEnv) (maxPages : Option Nat) (fuel : Nat)
    (s : CrawlState) : CrawlState × List Ev × ExitKind :=
  let (s1, t, ex) := crawlLoop env maxPages fuel s
  if s1.w.driver then (s1, t ++ [Ev.quit], ex) else (s1, t, ex)

/-- The state `__init__` builds: `robotsRead` is `some f` when
`self.robot_parser.read()` returned (with `f` the parsed policy's decision)
and `none` when it raised — then `robot_parser_completed` stays `False` and
the unread `RobotFileParser` would answer `False` to every `can_fetch`
query (its `last_checked` is still 0). -/
def initState (base : Str) (respect : Bool) (robotsRead : Option (Str → Bool)) :
    CrawlState :=
  { base := base
    respect_robots := respect
    robot_parser_completed := robotsRead.isSome
    robotAllows := robotsRead.getD (fun _ => false)
    visited := []
    queue := [base]
    w := ⟨false, false, 0⟩
    page_count := 0 }

/-- The outcomes of the run's `webdriver.Chrome` attempts, in order. -/
def initResults (t : List Ev) : List Bool :=
  t.filterMap (fun e => match e with | Ev.chromeInit b => some b | _ => none)

/-- The number of successful Selenium initializations in a trace. -/
def countInitSuccess (t : List Ev) : Nat :=
  (initResults t).count true

/-- The URLs passed to `get_page_content`, in order. -/
def fetchedUrls (t : List Ev) : List Str :=
  t.filterMap (fun e => match e with | Ev.fetched u => some u | _ => none)

/-- The number of `driver.quit()` calls in a trace. -/
def countQuit (t : List Ev) : Nat :=
  t.countP (fun e => match e with | Ev.quit => true | _ => false)

/-- The number of URLs skipped on robots grounds in a trace. -/
def countRobotsSkips (t : List Ev) : Nat :=
  t.countP (fun e => match e with | Ev.skippedRobots _ => true | _ => false)

/-- The number of CSV rows written in a trace. -/
def countRows (t : List Ev) : Nat :=
  t.countP (fun e => match e with | Ev.row _ _ => true | _ => false)

/-- The URLs appended to the queue (`self.queue.append(link)`) in a trace,
in order. -/
def enqueuedUrls (t : List Ev) : List Str :=
  t.filterMap (fun e => match e with | Ev.enqueued u => some u | _ => none)

/-!  ## Properties of the fetch layer -/

lemma init_spec (env : FetchEnv) (w : World) :
    (init_selenium env w).2.1.tried_selenium = w.tried_selenium ∧
    (init_selenium env w).2.1.driver = (w.driver || (init_selenium env w).1) ∧
    (init_selenium env w).2.2 =
      (if w.driver then [] else [Ev.chromeInit (init_selenium env w).1]) := by
  unfold init_selenium
  cases hd : w.driver <;> cases hc : env.chromeOk w.nInit <;> simp [hd, hc]

lemma gpc_master (env : FetchEnv) (w : World) (url : Str)
    (hw : w.driver = true → w.tried_selenium = true) :
    ((get_page_content env w url).2.1.driver = true →
      (get_page_content env w url).2.1.tried_selenium = true) ∧
    countInitSuccess (get_page_content env w url).2.2 +
      (if w.tried_selenium then 1 else 0) =
      (if (get_page_content env w url).2.1.tried_selenium then 1 else 0) ∧
    (get_page_content env w url).2.1.driver =
      (w.driver || (initResults (get_page_content env w url).2.2).contains true) := by
  have hini := init_spec env w
  rcases hini with ⟨h1, h2, h3⟩
  unfold get_page_content
  rcases henv : env.http url with _ | ⟨st, p⟩ <;> simp only [henv]
  · cases htr : w.tried_selenium
    · have hd : w.driver = false := by
        cases hdd : w.driver
        · rfl
        · exact absurd (hw hdd) (by simp [htr])
      rcases hini2 : init_selenium env w with ⟨ok, w1, evs⟩
      rw [hini2] at h1 h2 h3
      simp only [hd, if_false, Bool.false_or] at h2 h3
      cases hok : ok <;>
        simp_all [countInitSuccess, initResults] <;>
        rcases hr : env.render url with _ | q <;>
          simp [hr, countInitSuccess, initResults, h1, h2, h3]
    · simp [htr, countInitSuccess, initResults, hw]
  · cases hst : st == 200
    · simp [hst, countInitSuccess, initResults]
      exact hw
    · cases hjs : p.needsJs
      · simp [hst, hjs, countInitSuccess, initResults]
        exact hw
      · cases htr : w.tried_selenium
        · have hd : w.driver = false := by
            cases hdd : w.driver
            · rfl
            · exact absurd (hw hdd) (by simp [htr])
          rcases hini2 : init_selenium env w with ⟨ok, w1, evs⟩
          rw [hini2] at h1 h2 h3
          simp only [hd, if_false, Bool.false_or] at h2 h3
          cases hok : ok <;>
            simp_all [countInitSuccess, initResults] <;>
            rcases hr : env.render url with _ | q <;>
              simp [hr, countInitSuccess, initResults, h1, h2, h3]
        · simp [hst, hjs, htr, countInitSuccess, initResults, hw]

lemma gpc_evs_cases (env : FetchEnv) (w : World) (url : Str) :
    (get_page_content env w url).2.2 = [] ∨
    (∃ b, (get_page_content env w url).2.2 = [Ev.chromeInit b]) := by
  unfold get_page_content init_selenium
  rcases henv : env.http url with _ | ⟨st, p⟩ <;> simp only [henv] <;>
    repeat' first
      | (split <;> try simp)
      | simp

lemma gpc_no_misc (env : FetchEnv) (w : World) (url : Str) :
    countQuit (get_page_content env w url).2.2 = 0 ∧
    countRobotsSkips (get_page_content env w url).2.2 = 0 ∧
    countRows (get_page_content env w url).2.2 = 0 ∧
    fetchedUrls (get_page_content env w url).2.2 = [] ∧
    enqueuedUrls (get_page_content env w url).2.2 = [] := by
  rcases gpc_evs_cases env w url with h | ⟨b, h⟩ <;>
    simp [h, countQuit, countRobotsSkips, countRows, fetchedUrls, enqueuedUrls]

lemma extract_links_netloc (base : Str) (anchors : List Str) :
    ∀ l ∈ extract_links base anchors, urlnetloc l = urlnetloc base := by
  induction anchors with
  | nil => simp [extract_links]
  | cons h t ih =>
    intro l hl
    simp only [extract_links] at hl
    cases hhe : excludedHref h
    · simp only [hhe, Bool.false_eq_true, if_false] at hl
      cases hhd : is_same_domain base (normalize_url base h)
      · simp only [hhd, Bool.false_eq_true, if_false] at hl
        exact ih l hl
      · simp only [hhd, if_true] at hl
        rcases List.mem_cons.mp hl with rfl | hl2
        · simp only [is_same_domain] at hhd
          exact (beq_iff_eq.mp hhd).symm
        · exact ih l hl2
    · simp only [hhe, if_true] at hl
      exact ih l hl

lemma enqueue_links_spec (visited : List Str) (links : List Str) : ∀ queue : List Str,
    (∀ u ∈ (enqueue_links visited queue links).1, u ∈ queue ∨ u ∈ links) ∧
    (∀ u ∈ enqueuedUrls (enqueue_links visited queue links).2, u ∈ links) ∧
    (∀ e ∈ (enqueue_links visited queue links).2, ∃ u, e = Ev.enqueued u) := by
  induction links with
  | nil => intro queue; simp [enqueue_links, enqueuedUrls]
  | cons l ls ih =>
    intro queue
    unfold enqueue_links
    cases hc : (visited.contains l || queue.contains l)
    · simp only [hc, Bool.false_eq_true, if_false]
      rcases hrec : enqueue_links visited (queue ++ [l]) ls with ⟨q, evs⟩
      have := ih (queue ++ [l])
      rw [hrec] at this
      obtain ⟨hq, he, hsh⟩ := this
      refine ⟨?_, ?_, ?_⟩
      · intro u hu
        rcases hq u hu with hu2 | hu2
        · rcases List.mem_append.mp hu2 with h3 | h3
          · exact Or.inl h3
          · simp at h3
            exact Or.inr (by simp [h3])
        · exact Or.inr (List.mem_cons_of_mem _ hu2)
      · intro u hu
        simp only [enqueuedUrls, List.filterMap_cons] at hu
        simp only [enqueuedUrls] at he
        rcases List.mem_cons.mp hu with rfl | hu2
        · exact List.mem_cons_self _ _
        · exact List.mem_cons_of_mem _ (he u hu2)
      · intro e hee
        rcases List.mem_cons.mp hee with rfl | hee2
        · exact ⟨l, rfl⟩
        · exact hsh e hee2
    · simp only [hc, if_true]
      have := ih queue
      obtain ⟨hq, he, hsh⟩ := this
      refine ⟨?_, ?_, ?_⟩
      · intro u hu
        rcases hq u hu with h3 | h3
        · exact Or.inl h3
        · exact Or.inr (List.mem_cons_of_mem _ h3)
      · intro u hu
        exact List.mem_cons_of_mem _ (he u hu)
      · intro e hee
        exact hsh e hee

lemma enqueued_only_counts (evs : List Ev)
    (h : ∀ e ∈ evs, ∃ u, e = Ev.enqueued u) :
    countQuit evs = 0 ∧ countRobotsSkips evs = 0 ∧ countRows evs = 0 ∧
    fetchedUrls evs = [] ∧ initResults evs = [] := by
  induction evs with
  | nil => simp [countQuit, countRobotsSkips, countRows, fetchedUrls, initResults]
  | cons e t ih =>
    obtain ⟨u, rfl⟩ := h e (List.mem_cons_self _ _)
    have ih2 := ih (fun e he => h e (List.mem_cons_of_mem _ he))
    simpa [countQuit, countRobotsSkips, countRows, fetchedUrls, initResults] using ih2

lemma handle_master (env : FetchEnv) (s : CrawlState) (url : Str)
    (hw : s.w.driver = true → s.w.tried_selenium = true) :
    (handle_url env s url).1.robot_parser_completed = s.robot_parser_completed ∧
    (handle_url env s url).1.base = s.base ∧
    countQuit (handle_url env s url).2.1 = 0 ∧
    ((handle_url env s url).1.w.driver = true →
      (handle_url env s url).1.w.tried_selenium = true) ∧
    (countInitSuccess (handle_url env s url).2.1 +
        (if s.w.tried_selenium then 1 else 0) =
      (if (handle_url env s url).1.w.tried_selenium then 1 else 0)) ∧
    ((handle_url env s url).1.w.driver =
      (s.w.driver || (initResults (handle_url env s url).2.1).contains true)) ∧
    (s.robot_parser_completed = false →
      countRobotsSkips (handle_url env s url).2.1 = 0) ∧
    ((fetchedUrls (handle_url env s url).2.1 = [] ∧
        (handle_url env s url).1.visited = s.visited) ∨
      (s.visited.contains url = false ∧
        fetchedUrls (handle_url env s url).2.1 = [url] ∧
        (handle_url env s url).1.visited = url :: s.visited)) ∧
    (∀ u ∈ enqueuedUrls (handle_url env s url).2.1, urlnetloc u = urlnetloc s.base) ∧
    ((∀ u ∈ s.queue, urlnetloc u = urlnetloc s.base) →
      ∀ u ∈ (handle_url env s url).1.queue, urlnetloc u = urlnetloc s.base) := by
  unfold handle_url
  cases hv : s.visited.contains url
  · cases hrb : robotsBlocks s url
    · -- fetch path
      simp only [hv, hrb, Bool.false_eq_true, if_false]
      rcases hg : get_page_content env s.w url with ⟨content, w1, evs⟩
      have hm := gpc_master env s.w url hw
      rw [hg] at hm
      obtain ⟨hm1, hm2, hm3⟩ := hm
      have hn := gpc_no_misc env s.w url
      rw [hg] at hn
      obtain ⟨hn1, hn2, hn3, hn4, hn5⟩ := hn
      dsimp only at hm1 hm2 hm3 hn1 hn2 hn3 hn4 hn5
      rcases content with _ | page
      · refine ⟨by trivial, by trivial, ?_, hm1, ?_, ?_, ?_, ?_, ?_, ?_⟩
        · simpa [countQuit] using hn1
        · simpa [countInitSuccess, initResults] using hm2
        · simpa [initResults] using hm3
        · intro h
          simpa [countRobotsSkips] using hn2
        · exact Or.inr ⟨by trivial, by simpa [fetchedUrls] using hn4, by trivial⟩
        · intro u hu
          simp only [enqueuedUrls, List.filterMap_cons] at hu
          simp only [enqueuedUrls] at hn5
          rw [hn5] at hu
          simp at hu
        · intro hq u hu
          exact hq u hu
      · cases hs : env.sinkOk url
        · simp only [hs, Bool.false_eq_true, if_false]
          refine ⟨by trivial, by trivial, ?_, hm1, ?_, ?_, ?_, ?_, ?_, ?_⟩
          · simpa [countQuit] using hn1
          · simpa [countInitSuccess, initResults] using hm2
          · simpa [initResults] using hm3
          · intro h
            simpa [countRobotsSkips] using hn2
          · exact Or.inr ⟨by trivial, by simpa [fetchedUrls] using hn4, by trivial⟩
          · intro u hu
            simp only [enqueuedUrls, List.filterMap_cons] at hu
            simp only [enqueuedUrls] at hn5
            rw [hn5] at hu
            simp at hu
          · intro hq u hu
            exact hq u hu
        · simp only [hs, if_true]
          rcases heq : enqueue_links (url :: s.visited) s.queue
              (extract_links s.base page.anchors) with ⟨q2, enqEvs⟩
          have hes := enqueue_links_spec (url :: s.visited)
            (extract_links s.base page.anchors) s.queue
          rw [heq] at hes
          obtain ⟨hq2, hev2, hsh2⟩ := hes
          obtain ⟨he1, he2, he3, he4, he5⟩ := enqueued_only_counts enqEvs hsh2
          refine ⟨by trivial, by trivial, ?_, hm1, ?_, ?_, ?_, ?_, ?_, ?_⟩
          · simp [countQuit, List.countP_append]
            constructor
            · simpa [countQuit] using hn1
            · simpa [countQuit] using he1
          · simp only [countInitSuccess, initResults, List.filterMap_cons,
              List.filterMap_append]
            simp only [initResults] at he5
            rw [he5]
            simpa [countInitSuccess, initResults] using hm2
          · simp only [initResults, List.filterMap_cons, List.filterMap_append]
            simp only [initResults] at he5
            rw [he5]
            simpa [initResults] using hm3
          · intro h
            simp [countRobotsSkips, List.countP_append]
            constructor
            · simpa [countRobotsSkips] using hn2
            · simpa [countRobotsSkips] using he2
          · refine Or.inr ⟨by trivial, ?_, by trivial⟩
            simp only [fetchedUrls, List.filterMap_cons, List.filterMap_append]
            simp only [fetchedUrls] at hn4 he4
            rw [hn4, he4]
            simp
          · intro u hu
            simp only [enqueuedUrls, List.filterMap_cons, List.filterMap_append] at hu
            simp only [enqueuedUrls] at hn5
            rw [hn5] at hu
            simp only [List.nil_append] at hu
            exact extract_links_netloc s.base page.anchors u
              (hev2 u (by simpa [enqueuedUrls] using hu))
          · intro hq u hu
            rcases hq2 u hu with h3 | h3
            · exact hq u h3
            · exact extract_links_netloc s.base page.anchors u h3
    · -- robots skip
      simp only [hv, hrb, Bool.false_eq_true, if_false, if_true]
      refine ⟨by trivial, by trivial, by simp [countQuit], hw, ?_, by simp [initResults], ?_, ?_, ?_, ?_⟩
      · simp [countInitSuccess, initResults]
      · intro hc
        rw [robotsBlocks, hc] at hrb
        simp at hrb
      · exact Or.inl ⟨by simp [fetchedUrls], by trivial⟩
      · intro u hu
        simp [enqueuedUrls] at hu
      · intro hq u hu
        exact hq u hu
  · -- visited skip
    simp only [hv, if_true]
    refine ⟨by trivial, by trivial, by simp [countQuit], hw, ?_, by simp [initResults], ?_, ?_, ?_, ?_⟩
    · simp [countInitSuccess, initResults]
    · intro hc
      simp [countRobotsSkips]
    · exact Or.inl ⟨by simp [fetchedUrls], by trivial⟩
    · intro u hu
      simp [enqueuedUrls] at hu
    · intro hq u hu
      exact hq u hu

lemma containsTrue_append (l1 l2 : List Bool) :
    (l1 ++ l2).contains true = (l1.contains true || l2.contains true) := by
  induction l1 with
  | nil => simp
  | cons b t ih => cases b <;> simp [List.contains_cons, ih] <;> tauto

lemma crawlLoop_master (env : FetchEnv) (maxPages : Option Nat) : ∀ (fuel : Nat)
    (s : CrawlState), (s.w.driver = true → s.w.tried_selenium = true) →
    countInitSuccess (crawlLoop env maxPages fuel s).2.1 +
        (if s.w.tried_selenium then 1 else 0) =
      (if (crawlLoop env maxPages fuel s).1.w.tried_selenium then 1 else 0) ∧
    countQuit (crawlLoop env maxPages fuel s).2.1 = 0 ∧
    (crawlLoop env maxPages fuel s).1.w.driver =
      (s.w.driver || (initResults (crawlLoop env maxPages fuel s).2.1).contains true) ∧
    (s.robot_parser_completed = false →
      countRobotsSkips (crawlLoop env maxPages fuel s).2.1 = 0) ∧
    ((fetchedUrls (crawlLoop env maxPages fuel s).2.1).Nodup ∧
      ∀ u ∈ fetchedUrls (crawlLoop env maxPages fuel s).2.1, u ∉ s.visited) ∧
    ((∀ u ∈ s.queue, urlnetloc u = urlnetloc s.base) →
      ∀ u ∈ enqueuedUrls (crawlLoop env maxPages fuel s).2.1,
        urlnetloc u = urlnetloc s.base) := by
  intro fuel
  induction fuel with
  | zero =>
    intro s hw
    simp [crawlLoop, countInitSuccess, initResults, countQuit, countRobotsSkips,
      fetchedUrls, enqueuedUrls, hw]
  | succ n ih =>
    intro s hw
    unfold crawlLoop
    rcases hq : s.queue with _ | ⟨url, rest⟩
    · simp [countInitSuccess, initResults, countQuit, countRobotsSkips,
        fetchedUrls, enqueuedUrls, hw]
    · cases hb : budgetReached maxPages s.page_count
      · simp only [hb, Bool.false_eq_true, if_false]
        rcases hh : handle_url env { s with queue := rest } url with ⟨s1, evs, raised⟩
        have hma := handle_master env { s with queue := rest } url hw
        rw [hh] at hma
        dsimp only at hma
        obtain ⟨hc1, hc2, hc3, hc4, hc5, hc6, hc7, hc8, hc9, hc10⟩ := hma
        cases raised
        · simp only [Bool.false_eq_true, if_false]
          rcases hrec : crawlLoop env maxPages n s1 with ⟨s2, t, ex⟩
          have hih := ih s1 hc4
          rw [hrec] at hih
          dsimp only at hih
          obtain ⟨hi1, hi2, hi3, hi4, hi5, hi6⟩ := hih
          dsimp only
          refine ⟨?_, ?_, ?_, ?_, ?_, ?_⟩
          · rw [countInitSuccess] at *
            rw [initResults] at *
            rw [List.filterMap_append, List.count_append]
            omega
          · rw [countQuit] at *
            rw [List.countP_append]
            omega
          · rw [initResults] at *
            rw [List.filterMap_append, containsTrue_append, hi3, hc6]
            cases s.w.driver <;> cases (List.filterMap _ evs).contains true <;> simp
          · intro hcf
            rw [countRobotsSkips] at *
            rw [List.countP_append]
            have h7 := hc7 hcf
            have h4 := hi4 (by rw [hc1]; exact hcf)
            omega
          · rw [fetchedUrls] at *
            rw [List.filterMap_append]
            rcases hc8 with ⟨hfe, hve⟩ | ⟨hnv, hfe, hve⟩
            · rw [hfe]
              simp only [List.nil_append]
              refine ⟨hi5.1, ?_⟩
              intro u hu
              have := hi5.2 u hu
              rw [hve] at this
              exact this
            · rw [hfe]
              simp only [List.singleton_append]
              constructor
              · refine List.nodup_cons.mpr ⟨?_, hi5.1⟩
                intro hmem
                have := hi5.2 url hmem
                rw [hve] at this
                exact this (List.mem_cons_self _ _)
              · intro u hu
                rcases List.mem_cons.mp hu with rfl | hu2
                · simpa using hnv
                · have := hi5.2 u hu2
                  rw [hve] at this
                  intro hmem
                  exact this (List.mem_cons_of_mem _ hmem)
          · intro hqall
            rw [enqueuedUrls] at *
            rw [List.filterMap_append]
            intro u hu
            have hqrest : ∀ v ∈ rest, urlnetloc v = urlnetloc s.base := by
              intro v hv
              exact hqall v (List.mem_cons_of_mem _ hv)
            rcases List.mem_append.mp hu with h3 | h3
            · exact hc9 u h3
            · have hq1 : ∀ v ∈ s1.queue, urlnetloc v = urlnetloc s1.base := by
                rw [hc2]
                exact hc10 hqrest
              have := hi6 hq1 u h3
              rw [hc2] at this
              exact this
        · simp only [eq_self_iff_true, if_true]
          refine ⟨hc5, hc3, hc6, hc7, ?_, fun _ => hc9⟩
          rcases hc8 with ⟨hfe, _⟩ | ⟨hnv, hfe, _⟩
          · rw [hfe]
            simp
          · rw [hfe]
            refine ⟨List.nodup_singleton _, ?_⟩
            intro u hu
            rcases List.mem_cons.mp hu with rfl | hu2
            · simpa using hnv
            · simp at hu2
      · simp [countInitSuccess, initResults, countQuit, countRobotsSkips,
          fetchedUrls, enqueuedUrls, hw]

lemma collapseAux_true_head (s : Str) (c : Char)
    (h : (collapseAux true s).head? = some c) : isWs c = false := by
  induction s with
  | nil => simp [collapseAux] at h
  | cons a t ih =>
    by_cases ha : isWs a = true
    · rw [collapseAux, if_pos ha, if_pos rfl] at h
      exact ih h
    · rw [collapseAux, if_neg ha] at h
      simp at h
      rw [← h]
      simpa using ha

lemma noDoubleWs_cons_of (a : Char) (l : Str)
    (hl : noDoubleWs l = true)
    (hh : ∀ c, l.head? = some c → (isWs a = false ∨ isWs c = false)) :
    noDoubleWs (a :: l) = true := by
  cases l with
  | nil => simp [noDoubleWs]
  | cons b t =>
    rw [noDoubleWs]
    have := hh b rfl
    simp only [Bool.and_eq_true, Bool.or_eq_true, Bool.not_eq_true']
    exact ⟨by rcases this with h | h <;> simp [h], hl⟩

lemma collapseAux_noDouble (s : Str) : ∀ b, noDoubleWs (collapseAux b s) = true := by
  induction s with
  | nil => intro b; simp [collapseAux, noDoubleWs]
  | cons a t ih =>
    intro b
    by_cases ha : isWs a = true
    · rw [collapseAux, if_pos ha]
      cases b
      · rw [if_neg (by simp)]
        refine noDoubleWs_cons_of _ _ (ih true) ?_
        intro c hc
        exact Or.inr (collapseAux_true_head t c hc)
      · rw [if_pos rfl]
        exact ih true
    · rw [collapseAux, if_neg ha]
      refine noDoubleWs_cons_of _ _ (ih false) ?_
      intro c hc
      exact Or.inl (by simpa using ha)

lemma noDoubleWs_tail (a : Char) (l : Str)
    (h : noDoubleWs (a :: l) = true) : noDoubleWs l = true := by
  cases l with
  | nil => simp [noDoubleWs]
  | cons b t =>
    rw [noDoubleWs] at h
    exact ((Bool.and_eq_true _ _).mp h).2

lemma noDoubleWs_dropWhile (p : Char → Bool) (l : Str)
    (h : noDoubleWs l = true) : noDoubleWs (l.dropWhile p) = true := by
  induction l with
  | nil => simpa using h
  | cons a t ih =>
    rw [List.dropWhile_cons]
    by_cases hp : p a = true
    · rw [if_pos hp]
      exact ih (noDoubleWs_tail a t h)
    · rw [if_neg hp]
      exact h

lemma noDoubleWs_iff_chain (l : Str) :
    noDoubleWs l = true ↔
      List.Chain' (fun a b => ¬(isWs a = true ∧ isWs b = true)) l := by
  induction l with
  | nil => simp [noDoubleWs]
  | cons a t ih =>
    cases t with
    | nil => simp [noDoubleWs]
    | cons b t2 =>
      rw [noDoubleWs, List.chain'_cons, Bool.and_eq_true, ih]
      constructor
      · rintro ⟨h1, h2⟩
        refine ⟨?_, h2⟩
        rintro ⟨ha, hb⟩
        simp [ha, hb] at h1
      · rintro ⟨h1, h2⟩
        refine ⟨?_, h2⟩
        by_cases ha : isWs a = true
        · by_cases hb : isWs b = true
          · exact absurd ⟨ha, hb⟩ h1
          · simp [ha, hb]
        · simp [ha]

lemma noDoubleWs_reverse (l : Str) :
    noDoubleWs l.reverse = noDoubleWs l := by
  rw [Bool.eq_iff_iff, noDoubleWs_iff_chain, noDoubleWs_iff_chain,
    List.chain'_reverse]
  constructor
  · intro h
    exact h.imp (fun a b hab => by rintro ⟨ha, hb⟩; exact hab ⟨hb, ha⟩)
  · intro h
    exact h.imp (fun a b hab => by rintro ⟨ha, hb⟩; exact hab ⟨hb, ha⟩)

lemma dropWhile_head_not (p : Char → Bool) (l : Str) (c : Char)
    (h : (l.dropWhile p).head? = some c) : p c = false := by
  induction l with
  | nil => simp [List.dropWhile] at h
  | cons a t ih =>
    rw [List.dropWhile_cons] at h
    by_cases hp : p a = true
    · rw [if_pos hp] at h
      exact ih h
    · rw [if_neg hp] at h
      simp at h
      rw [← h]
      simpa using hp

lemma dropWhile_getLast (p : Char → Bool) (l : Str)
    (h : l.dropWhile p ≠ []) : (l.dropWhile p).getLast? = l.getLast? := by
  induction l with
  | nil => simp [List.dropWhile] at h
  | cons a t ih =>
    rw [List.dropWhile_cons] at h ⊢
    by_cases hp : p a = true
    · rw [if_pos hp] at h ⊢
      rcases t with _ | ⟨b, t2⟩
      · simp [List.dropWhile] at h
      · rw [ih h, List.getLast?_cons_cons]
    · rw [if_neg hp] at h ⊢

lemma noEdgeWs_of (l : Str)
    (h1 : ∀ c, l.head? = some c → isWs c = false)
    (h2 : ∀ c, l.getLast? = some c → isWs c = false) : noEdgeWs l = true := by
  rw [noEdgeWs]
  rcases hh : l.head? with _ | a <;> rcases hg : l.getLast? with _ | b <;>
    simp_all [h1, h2]

lemma stripWs_props (m : Str) (hm : noDoubleWs m = true) :
    noDoubleWs (stripWs m) = true ∧ noEdgeWs (stripWs m) = true := by
  have hnd1 : noDoubleWs (m.dropWhile isWs) = true := noDoubleWs_dropWhile _ _ hm
  have hndz : noDoubleWs ((m.dropWhile isWs).reverse.dropWhile isWs) = true := by
    refine noDoubleWs_dropWhile _ _ ?_
    rw [noDoubleWs_reverse]
    exact hnd1
  rw [stripWs]
  constructor
  · rw [noDoubleWs_reverse]
    exact hndz
  · refine noEdgeWs_of _ ?_ ?_
    · intro c hc
      rw [List.head?_reverse] at hc
      by_cases hzn : (m.dropWhile isWs).reverse.dropWhile isWs = []
      · rw [hzn] at hc
        simp at hc
      · rw [dropWhile_getLast isWs _ hzn, List.getLast?_reverse] at hc
        exact dropWhile_head_not isWs m c hc
    · intro c hc
      rw [List.getLast?_reverse] at hc
      exact dropWhile_head_not isWs _ c hc

lemma hasPrefixL_refl (p : Str) : hasPrefixL p p = true := by
  induction p with
  | nil => rfl
  | cons a t ih => simp [hasPrefixL, ih]

lemma hasPrefixL_append (p l t : Str) (h : hasPrefixL p l = true) :
    hasPrefixL p (l ++ t) = true := by
  induction p generalizing l with
  | nil => rfl
  | cons a q ih =>
    cases l with
    | nil => simp [hasPrefixL] at h
    | cons b l2 =>
      simp [hasPrefixL] at h ⊢
      exact ⟨h.1, ih l2 h.2⟩

lemma http_prefix_scheme (scheme : Str)
    (h : scheme = ("http").toList ∨ scheme = ("https").toList) :
    hasPrefixL (("http").toList) scheme = true := by
  rcases h with rfl | rfl
  · exact hasPrefixL_refl _
  · decide

lemma urlunsplit_http (scheme netloc path query fragment : Str)
    (h : scheme = ("http").toList ∨ scheme = ("https").toList) :
    hasPrefixL (("http").toList) (urlunsplit scheme netloc path query fragment) = true := by
  have hne : scheme.isEmpty = false := by rcases h with rfl | rfl <;> rfl
  have hbase : ∀ u : Str, hasPrefixL (("http").toList) (scheme ++ ':' :: u) = true := by
    intro u
    exact hasPrefixL_append _ _ _ (http_prefix_scheme scheme h)
  unfold urlunsplit
  simp only [hne, Bool.not_false, eq_self_iff_true, if_true]
  split
  · split
    · exact hasPrefixL_append _ _ _ (hasPrefixL_append _ _ _ (hbase _))
    · exact hasPrefixL_append _ _ _ (hbase _)
  · split
    · exact hasPrefixL_append _ _ _ (hbase _)
    · exact hbase _

lemma urlunparse_http (r : ParseRes)
    (h : r.scheme = ("http").toList ∨ r.scheme = ("https").toList) :
    hasPrefixL (("http").toList) (urlunparse r) = true := by
  unfold urlunparse
  exact urlunsplit_http _ _ _ _ _ h

lemma urljoin_http_cases (base u : Str)
    (hb : hasPrefixL (("http").toList) base = true)
    (hs : (urlparse base []).scheme = ("http").toList ∨
          (urlparse base []).scheme = ("https").toList) :
    hasPrefixL (("http").toList) (urljoin base u) = true ∨ urljoin base u = u := by
  have hbne : ¬(base.isEmpty = true) := by
    cases base
    · simp [hasPrefixL] at hb
    · simp
  unfold urljoin
  rw [if_neg hbne]
  by_cases hu : u.isEmpty = true
  · rw [if_pos hu]
    exact Or.inl hb
  · rw [if_neg hu]
    by_cases hrel : ((urlparse u (urlparse base []).scheme).scheme !=
        (urlparse base []).scheme ||
        !uses_relative.contains (urlparse u (urlparse base []).scheme).scheme) = true
    · rw [if_pos hrel]
      exact Or.inr rfl
    · rw [if_neg hrel]
      left
      have hsch : (urlparse u (urlparse base []).scheme).scheme =
          (urlparse base []).scheme := by
        simp only [Bool.or_eq_true, Bool.not_eq_true', bne_iff_ne, ne_eq] at hrel
        rcases Decidable.em ((urlparse u (urlparse base []).scheme).scheme =
            (urlparse base []).scheme) with h | h
        · exact h
        · exact absurd (Or.inl h) hrel
      have hs2 : (urlparse u (urlparse base []).scheme).scheme = ("http").toList ∨
          (urlparse u (urlparse base []).scheme).scheme = ("https").toList := by
        rw [hsch]
        exact hs
      by_cases hnl : (uses_netloc.contains (urlparse u (urlparse base []).scheme).scheme &&
          !(urlparse u (urlparse base []).scheme).netloc.isEmpty) = true
      · rw [if_pos hnl]
        exact urlunparse_http _ hs2
      · rw [if_neg hnl]
        by_cases hpp : ((urlparse u (urlparse base []).scheme).path.isEmpty &&
            (urlparse u (urlparse base []).scheme).params.isEmpty) = true
        · rw [if_pos hpp]
          exact urlunparse_http _ hs2
        · rw [if_neg hpp]
          exact urlunparse_http _ hs2

/-!  ## Concrete scenarios used by witnesses and counterexamples -/

/-- A seed base URL. -/
def exBase : Str := ("http://example.com").toList

/-- A same-domain page URL one directory deep. -/
def exPageUrl : Str := ("http://example.com/dir/page.html").toList

/-- A JavaScript-heavy page whose only link is `/two`. -/
def pageJs : Page :=
  { needsJs := true, anchors := [("/two").toList], nodes := [] }

/-- Environment where the seed page triggers the rendering heuristic, every
other fetch raises a transport error, and `webdriver.Chrome` always fails. -/
def envInitFail : FetchEnv :=
  { http := fun u => if u == exBase then HttpResult.ok 200 pageJs else HttpResult.err
    chromeOk := fun _ => false
    render := fun _ => none
    sinkOk := fun _ => true }

/-- The run of `envInitFail` from a fresh crawler on `exBase`. -/
def runInitFail : CrawlState × List Ev × ExitKind :=
  scrape envInitFail none 5 (initState exBase true (some (fun _ => true)))

/-- A static seed page whose only link is the relative `dir/page.html`. -/
def pageSeed : Page :=
  { needsJs := false, anchors := [("dir/page.html").toList], nodes := [] }

/-- A static page at `exPageUrl` whose only link is the relative `sub.html`. -/
def pageDir : Page :=
  { needsJs := false, anchors := [("sub.html").toList], nodes := [] }

/-- Environment serving `pageSeed` at the base URL and `pageDir` at
`exPageUrl`. -/
def envDir : FetchEnv :=
  { http := fun u =>
      if u == exBase then HttpResult.ok 200 pageSeed
      else if u == exPageUrl then HttpResult.ok 200 pageDir
      else HttpResult.err
    chromeOk := fun _ => false
    render := fun _ => none
    sinkOk := fun _ => true }

/-- The run of `envDir` from a fresh crawler on `exBase`. -/
def runDir : CrawlState × List Ev × ExitKind :=
  scrape envDir none 10 (initState exBase true (some (fun _ => true)))

/-- Environment where every static fetch raises a transport error and the
rendering engine never initializes. -/
def envAllFail : FetchEnv :=
  { http := fun _ => HttpResult.err
    chromeOk := fun _ => false
    render := fun _ => none
    sinkOk := fun _ => true }

/-- Environment whose every response has status 404. -/
def envNon200 : FetchEnv :=
  { http := fun _ => HttpResult.ok 404 { needsJs := false, anchors := [], nodes := [] }
    chromeOk := fun _ => false
    render := fun _ => none
    sinkOk := fun _ => true }

/-- Three pending same-domain URLs, robots parsed and allowing everything. -/
def sThree : CrawlState :=
  { base := exBase
    respect_robots := true
    robot_parser_completed := true
    robotAllows := fun _ => true
    visited := []
    queue := [("http://example.com/a").toList, ("http://example.com/b").toList,
      ("http://example.com/c").toList]
    w := ⟨false, false, 0⟩
    page_count := 0 }

/-- A state that has already visited `http://example.com/a`. -/
def sVisited : CrawlState :=
  { sThree with visited := [("http://example.com/a").toList] }

lemma countInitSuccess_append (a b : List Ev) :
    countInitSuccess (a ++ b) = countInitSuccess a + countInitSuccess b := by
  simp [countInitSuccess, initResults, List.filterMap_append]

lemma initState_wf (base : Str) (respect : Bool) (robots : Option (Str → Bool)) :
    (initState base respect robots).w.driver = true →
    (initState base respect robots).w.tried_selenium = true := by
  intro h
  simp [initState] at h

/-- C1 (counterexample): in a run where every page triggers the rendering
path and `webdriver.Chrome` always fails, the initialization is attempted
**twice**: the first attempt fails and a second attempt is still made for the
next URL, because `self.tried_selenium` is only set after a *successful*
`initialize_selenium()` (line 158-159).  This refutes "if an initialization
attempt fails, initialization is never attempted again for any subsequent URL
in that run". -/
theorem C1_counterexample :
    initResults runInitFail.2.1 = [false, false] ∧
    countInitSuccess runInitFail.2.1 = 0 := by
  constructor
  · rfl
  · rfl

/-- C1 (amended): the rendering engine is **successfully** initialized at
most once per crawl run — after a success `self.tried_selenium` blocks every
later attempt — but a failed initialization attempt may be retried on
subsequent URLs. -/
theorem C1_one_shot_success (env : FetchEnv) (maxPages : Option Nat) (fuel : Nat)
    (base : Str) (respect : Bool) (robots : Option (Str → Bool)) :
    countInitSuccess (scrape env maxPages fuel (initState base respect robots)).2.1 ≤ 1 := by
  unfold scrape
  rcases hr : crawlLoop env maxPages fuel (initState base respect robots) with ⟨s1, t, ex⟩
  have hm := crawlLoop_master env maxPages fuel (initState base respect robots)
    (initState_wf base respect robots)
  rw [hr] at hm
  obtain ⟨h1, -, -, -, -, -⟩ := hm
  dsimp only at h1
  have h1' : countInitSuccess t = if s1.w.tried_selenium = true then 1 else 0 := by
    simpa [initState] using h1
  cases hd : s1.w.driver
  · simp only [hd, Bool.false_eq_true, if_false]
    cases htr : s1.w.tried_selenium <;> rw [htr] at h1' <;> simp at h1' <;> omega
  · simp only [hd, if_true]
    rw [countInitSuccess_append]
    have hq0 : countInitSuccess [Ev.quit] = 0 := rfl
    rw [hq0]
    cases htr : s1.w.tried_selenium <;> rw [htr] at h1' <;> simp at h1' <;> omega

/-- C3: when reading `robots.txt` at startup raised
(`robot_parser_completed = False`, modelled by `robotsRead = none`), the
politeness test of the crawl loop — `self.robot_parser_completed and not
self.can_fetch(url)` — is false for every URL, so no URL is ever skipped on
robots grounds for the whole run (the run is fail-open). -/
theorem C3_fail_open (env : FetchEnv) (maxPages : Option Nat) (fuel : Nat)
    (base : Str) (respect : Bool) :
    (∀ url, robotsBlocks (initState base respect none) url = false) ∧
    countRobotsSkips (scrape env maxPages fuel (initState base respect none)).2.1 = 0 := by
  constructor
  · intro url
    simp [robotsBlocks, initState]
  · unfold scrape
    rcases hr : crawlLoop env maxPages fuel (initState base respect none) with ⟨s1, t, ex⟩
    have hm := crawlLoop_master env maxPages fuel (initState base respect none)
      (initState_wf base respect none)
    rw [hr] at hm
    obtain ⟨-, -, -, h4, -, -⟩ := hm
    have ht := h4 (by simp [initState])
    dsimp only at ht
    cases hd : s1.w.driver
    · simp only [hd, Bool.false_eq_true, if_false]
      exact ht
    · simp only [hd, if_true]
      have hap : countRobotsSkips (t ++ [Ev.quit]) = countRobotsSkips t := by
        simp [countRobotsSkips, List.countP_append]
      rw [hap]
      exact ht

/-- C4: in every run from a fresh crawler state, no URL is passed to the
fetch step twice: a dequeued URL already in `visited_urls` is skipped, and a
fetched URL is added to `visited_urls` before its fetch, so the sequence of
fetched URLs has no duplicates — even when the same URL is discovered via
several link paths. -/
theorem C4_dedup (env : FetchEnv) (maxPages : Option Nat) (fuel : Nat)
    (base : Str) (respect : Bool) (robots : Option (Str → Bool)) :
    (fetchedUrls (scrape env maxPages fuel (initState base respect robots)).2.1).Nodup := by
  unfold scrape
  rcases hr : crawlLoop env maxPages fuel (initState base respect robots) with ⟨s1, t, ex⟩
  have hm := crawlLoop_master env maxPages fuel (initState base respect robots)
    (initState_wf base respect robots)
  rw [hr] at hm
  obtain ⟨-, -, -, -, h5, -⟩ := hm
  have h51 := h5.1
  dsimp only at h51
  cases hd : s1.w.driver
  · simp only [hd, Bool.false_eq_true, if_false]
    exact h51
  · simp only [hd, if_true]
    have hap : fetchedUrls (t ++ [Ev.quit]) = fetchedUrls t := by
      simp [fetchedUrls, List.filterMap_append]
    rw [hap]
    exact h51

/-- C5: every link returned by `extract_links` has the same netloc — hence
the same host — as the configured base URL (`is_same_domain` keeps only
those), and consequently every URL ever appended to the queue after the seed
in any run has the host of the seed URL; cross-host links are never
enqueued. -/
theorem C5_domain_scoping :
    (∀ (base : Str) (anchors : List Str) (l : Str), l ∈ extract_links base anchors →
      urlnetloc l = urlnetloc base ∧ urlhost l = urlhost base) ∧
    (∀ (env : FetchEnv) (maxPages : Option Nat) (fuel : Nat) (base : Str)
      (respect : Bool) (robots : Option (Str → Bool)) (u : Str),
      u ∈ enqueuedUrls (scrape env maxPages fuel (initState base respect robots)).2.1 →
      urlhost u = urlhost base) := by
  constructor
  · intro base anchors l hl
    have hn := extract_links_netloc base anchors l hl
    exact ⟨hn, by rw [urlhost, urlhost, hn]⟩
  · intro env maxPages fuel base respect robots u hu
    rw [scrape] at hu
    rcases hr : crawlLoop env maxPages fuel (initState base respect robots) with ⟨s1, t, ex⟩
    rw [hr] at hu
    have hm := crawlLoop_master env maxPages fuel (initState base respect robots)
      (initState_wf base respect robots)
    rw [hr] at hm
    obtain ⟨-, -, -, -, -, h6⟩ := hm
    have hq : ∀ v ∈ (initState base respect robots).queue,
        urlnetloc v = urlnetloc (initState base respect robots).base := by
      intro v hv
      simp only [initState] at hv
      simp only [List.mem_singleton] at hv
      rw [hv]
      rfl
    have hu2 : u ∈ enqueuedUrls t := by
      dsimp only at hu
      cases hd : s1.w.driver
      · simp only [hd, Bool.false_eq_true, if_false] at hu
        exact hu
      · simp only [hd, if_true] at hu
        simpa [enqueuedUrls, List.filterMap_append] using hu
    have hfin := h6 hq u hu2
    have hbb : (initState base respect robots).base = base := rfl
    rw [hbb] at hfin
    rw [urlhost, urlhost, hfin]

/-- C7: in every run from a fresh crawler state and on every exit path
(frontier exhaustion, budget, a raising sink, or fuel cut-off), `driver.quit()`
is called exactly once when a rendering engine handle was created during the
run (a successful `webdriver.Chrome` call) and never otherwise; the `finally`
block releases the driver it finds. -/
theorem C7_driver_release (env : FetchEnv) (maxPages : Option Nat) (fuel : Nat)
    (base : Str) (respect : Bool) (robots : Option (Str → Bool)) :
    countQuit (scrape env maxPages fuel (initState base respect robots)).2.1 =
      (if (initResults
          (scrape env maxPages fuel (initState base respect robots)).2.1).contains true
        then 1 else 0) ∧
    (scrape env maxPages fuel (initState base respect robots)).1.w.driver =
      (initResults (scrape env maxPages fuel (initState base respect robots)).2.1).contains
        true := by
  unfold scrape
  rcases hr : crawlLoop env maxPages fuel (initState base respect robots) with ⟨s1, t, ex⟩
  have hm := crawlLoop_master env maxPages fuel (initState base respect robots)
    (initState_wf base respect robots)
  rw [hr] at hm
  obtain ⟨-, h2, h3, -, -, -⟩ := hm
  dsimp only at h2 h3
  have h3' : s1.w.driver = (initResults t).contains true := by
    simpa [initState] using h3
  cases hd : s1.w.driver
  · simp only [hd, Bool.false_eq_true, if_false]
    rw [hd] at h3'
    constructor
    · rw [← h3']
      simpa using h2
    · exact h3'
  · simp only [hd, if_true]
    rw [hd] at h3'
    have hini : initResults (t ++ [Ev.quit]) = initResults t := by
      simp [initResults, List.filterMap_append]
    rw [hini, ← h3']
    constructor
    · have hcq : countQuit (t ++ [Ev.quit]) = countQuit t + 1 := by
        simp [countQuit, List.countP_append]
      rw [hcq, h2]
      simp
    · rfl

/-- C5 (witness): at the base URL `http://example.com`, the page anchor
`sub.html` is kept by `extract_links` and its resolved URL has the base's
netloc and host; and in the concrete `runDir` crawl the enqueued URL
`http://example.com/dir/page.html` has the seed's host. -/
theorem C5_domain_scoping_witness :
    (urlnetloc (("http://example.com/sub.html").toList) = urlnetloc exBase ∧
      urlhost (("http://example.com/sub.html").toList) = urlhost exBase) ∧
    urlhost exPageUrl = urlhost exBase :=
  ⟨C5_domain_scoping.1 exBase [("sub.html").toList] (("http://example.com/sub.html").toList)
      (by decide),
   C5_domain_scoping.2 envDir none 10 exBase true (some (fun _ => true)) exPageUrl
      (by decide)⟩

/-- C2 (counterexample): the crawler's base URL is `http://example.com`; the
fetched page `http://example.com/dir/page.html` contains the relative
reference `sub.html`.  Link extraction resolves it (via
`urljoin(self.base_url, url)`) to `http://example.com/sub.html` — resolution
against the crawl's configured base URL — whereas resolution against the
page's own origin would give `http://example.com/dir/sub.html`.  The run
`runDir` fetches that page and enqueues the base-resolved URL, never the
page-resolved one. -/
theorem C2_counterexample :
    extract_links exBase [("sub.html").toList] =
      [("http://example.com/sub.html").toList] ∧
    urljoin exPageUrl (("sub.html").toList) =
      ("http://example.com/dir/sub.html").toList ∧
    exPageUrl ∈ fetchedUrls runDir.2.1 ∧
    Ev.enqueued (("http://example.com/sub.html").toList) ∈ runDir.2.1 ∧
    ¬ Ev.enqueued (("http://example.com/dir/sub.html").toList) ∈ runDir.2.1 ∧
    ("http://example.com/sub.html").toList ≠
      ("http://example.com/dir/sub.html").toList := by
  refine ⟨by decide, by decide, by decide, by decide, by decide, by decide⟩

/-- C2 (amended): every reference found by link extraction is resolved
against the crawl's **configured base URL**, not the fetched page's URL:
`extract_links` receives no page URL at all, and equals the pipeline that
drops excluded references, resolves each against the base URL with
`normalize_url`, and keeps the same-domain results. -/
theorem C2_resolution_against_base (base : Str) (anchors : List Str) :
    extract_links base anchors =
      ((anchors.filter (fun h => !excludedHref h)).map (normalize_url base)).filter
        (fun u => is_same_domain base u) := by
  induction anchors with
  | nil => rfl
  | cons h t ih =>
    cases hhe : excludedHref h
    · cases hd : is_same_domain base (normalize_url base h)
      · simp [extract_links, hhe, hd, ih]
      · simp [extract_links, hhe, hd, ih]
    · simp [extract_links, hhe, ih]

/-- C6: a static fetch completing with a status code other than 200 is
terminal for that URL: `get_page_content` returns `None`, the Selenium state
is untouched and no initialization or navigation is attempted (no events). -/
theorem C6_non200_terminal (env : FetchEnv) (w : World) (url : Str)
    (status : Nat) (page : Page)
    (hresp : env.http url = HttpResult.ok status page) (hne : status ≠ 200) :
    get_page_content env w url = (none, w, []) := by
  unfold get_page_content
  rw [hresp]
  have hb : (status == 200) = false := by simpa using hne
  simp [hb]

/-- C6 (witness): with every response a 404, fetching returns `None` and the
fresh Selenium state is unchanged with no events. -/
theorem C6_non200_terminal_witness :
    get_page_content envNon200 ⟨false, false, 0⟩ exBase = (none, ⟨false, false, 0⟩, []) :=
  C6_non200_terminal envNon200 ⟨false, false, 0⟩ exBase 404
    { needsJs := false, anchors := [], nodes := [] } rfl (by decide)

/-- C8 (counterexample): with the schemeless base URL `a/b`, normalization is
not idempotent: `normalize_url` maps `c` to `a/c`, but maps `a/c` to
`a/a/c` (relative-path resolution applies again), so
`normalize(normalize(u)) ≠ normalize(u)` for `u = "c"`. -/
theorem C8_counterexample :
    normalize_url (("a/b").toList) (("c").toList) = ("a/c").toList ∧
    normalize_url (("a/b").toList) (normalize_url (("a/b").toList) (("c").toList)) =
      ("a/a/c").toList ∧
    normalize_url (("a/b").toList) (normalize_url (("a/b").toList) (("c").toList)) ≠
      normalize_url (("a/b").toList) (("c").toList) := by
  refine ⟨by decide, by decide, by decide⟩

/-- C8 (amended): normalization is idempotent for every URL string `u`
whenever the configured base URL literally starts with `"http"` and parses
with scheme `http` or `https` — in particular for every ordinary absolute
`http(s)` base URL.  (For schemeless bases such as `a/b` it can fail, as the
counterexample shows.) -/
theorem C8_normalize_idempotent (base u : Str)
    (hb : hasPrefixL (("http").toList) base = true)
    (hs : (urlparse base []).scheme = ("http").toList ∨
          (urlparse base []).scheme = ("https").toList) :
    normalize_url base (normalize_url base u) = normalize_url base u := by
  by_cases hu : hasPrefixL (("http").toList) u = true
  · have h1 : normalize_url base u = u := by rw [normalize_url, if_pos hu]
    rw [h1, normalize_url, if_pos hu]
  · have h1 : normalize_url base u = urljoin base u := by rw [normalize_url, if_neg hu]
    rcases urljoin_http_cases base u hb hs with h | h
    · rw [h1, normalize_url, if_pos h]
    · rw [h1, h, normalize_url, if_neg hu, h]

/-- C8 (witness): idempotence at the base `http://example.com` and `u = "a"`. -/
theorem C8_normalize_idempotent_witness :
    normalize_url exBase (normalize_url exBase (("a").toList)) =
      normalize_url exBase (("a").toList) :=
  C8_normalize_idempotent exBase (("a").toList) (by decide) (Or.inl (by decide))

/-- C9: for every markup input, the extracted text contains no run of two or
more consecutive whitespace characters and no leading or trailing whitespace
(`re.sub(r'\s+', ' ', text).strip()`), and for null/empty markup (`none`) as
well as for markup with no nodes the extraction returns the empty string. -/
theorem C9_text_normalized (html : Option (List HNode)) :
    noDoubleWs (extract_text html) = true ∧
    noEdgeWs (extract_text html) = true ∧
    extract_text none = [] ∧ extract_text (some []) = [] := by
  have hmain : ∀ ns : List HNode,
      noDoubleWs (extract_text (some ns)) = true ∧
      noEdgeWs (extract_text (some ns)) = true := by
    intro ns
    have hc := collapseAux_noDouble (joinSep [' '] (keptTextsList ns)) false
    exact stripWs_props _ hc
  have hnil : extract_text (some []) = [] := by
    simp [extract_text, keptTextsList, joinSep, collapseWs, collapseAux, stripWs]
  rcases html with _ | ns
  · exact ⟨rfl, rfl, rfl, hnil⟩
  · exact ⟨(hmain ns).1, (hmain ns).2, rfl, hnil⟩

/-- C10: the page counter compared against the `max_pages` budget counts
**attempted fetches, not successes**: a dequeued URL that is already visited
or robots-blocked leaves `page_count` unchanged, while a URL that passes both
checks increments it by one even when `get_page_content` returns `None` (in
which case no CSV row is written); concretely, a loop with budget 2 over
three pending URLs whose fetches all fail ends with the budget exhausted
(`page_count = 2`), zero rows written and a URL still pending. -/
theorem C10_budget_counts_attempts :
    (∀ (env : FetchEnv) (s : CrawlState) (url : Str),
      (s.visited.contains url || robotsBlocks s url) = true →
      (handle_url env s url).1.page_count = s.page_count) ∧
    (∀ (env : FetchEnv) (s : CrawlState) (url : Str),
      s.visited.contains url = false → robotsBlocks s url = false →
      (get_page_content env s.w url).1 = none →
      (handle_url env s url).1.page_count = s.page_count + 1 ∧
      countRows (handle_url env s url).2.1 = 0) ∧
    (∀ (env : FetchEnv) (s : CrawlState) (url : Str),
      s.visited.contains url = false → robotsBlocks s url = false →
      (handle_url env s url).2.2 = false →
      (handle_url env s url).1.page_count = s.page_count + 1) ∧
    ((crawlLoop envAllFail (some 2) 5 sThree).1.page_count = 2 ∧
      countRows (crawlLoop envAllFail (some 2) 5 sThree).2.1 = 0 ∧
      (crawlLoop envAllFail (some 2) 5 sThree).2.2 = ExitKind.finished ∧
      (crawlLoop envAllFail (some 2) 5 sThree).1.queue ≠ []) := by
  refine ⟨?_, ?_, ?_, by decide, by decide, by decide, by decide⟩
  · intro env s url h
    unfold handle_url
    cases hv : s.visited.contains url
    · have hrb : robotsBlocks s url = true := by
        rw [hv] at h
        simpa using h
      simp [hv, hrb]
    · simp [hv]
  · intro env s url hv hrb h3
    unfold handle_url
    simp only [hv, Bool.false_eq_true, if_false, hrb]
    rcases hg : get_page_content env s.w url with ⟨content, w1, evs⟩
    have hn := gpc_no_misc env s.w url
    rw [hg] at hn h3
    dsimp only at hn h3
    subst h3
    refine ⟨rfl, ?_⟩
    simpa [countRows] using hn.2.2.1
  · intro env s url hv hrb h3
    unfold handle_url at h3 ⊢
    simp only [hv, Bool.false_eq_true, if_false, hrb] at h3 ⊢
    rcases hg : get_page_content env s.w url with ⟨content, w1, evs⟩
    rw [hg] at h3
    rcases content with _ | page
    · rfl
    · dsimp only at h3 ⊢
      cases hs : env.sinkOk url
      · rw [hs] at h3
        simp at h3
      · simp [hs]

/-- C10 (witness): a visited URL consumes no budget; an unvisited allowed URL
whose fetch raises a transport error (and Selenium fails to start) still
increments the page counter. -/
theorem C10_budget_counts_attempts_witness :
    (handle_url envAllFail sVisited (("http://example.com/a").toList)).1.page_count =
      sVisited.page_count ∧
    (handle_url envAllFail sThree (("http://example.com/a").toList)).1.page_count =
      sThree.page_count + 1 :=
  ⟨C10_budget_counts_attempts.1 envAllFail sVisited (("http://example.com/a").toList)
      (by decide),
   (C10_budget_counts_attempts.2.1 envAllFail sThree (("http://example.com/a").toList)
      (by decide) (by decide) rfl).1⟩
